import Mathlib

/-!
Verification of the toy-gpt train-300-context-2-animals pipeline.

The repository's modules under `src/toy_gpt_train_animals` are thin wrappers
that import the core numerics (`SimpleNextTokenModel`, `make_training_pairs`,
`train_model`, `generate_tokens_context2`, `top_k`, artifact I/O) from the
external `toy_gpt_train` package, whose sources are not part of this
repository checkout.  Those core operations are therefore modelled here from
the specification (spec.md §3, §4, §6, §7); definitions that come from code
actually present in the checkout (the demo entry point of `c_model.py`) are
embedded from that source directly.

Real-valued weights and probabilities are modelled with `ℝ`; Python floats are
treated as exact reals, so floating-point tolerances in the spec (±1e-9)
become exact statements that trivially satisfy the tolerance.
-/

namespace ToyGPT

/-- Modelled from the spec: the `SimpleNextTokenModel` of the missing
`toy_gpt_train.c_model` module.  Spec §3: "a 3-dimensional array of real
numbers conceptually shaped [vocab_size, vocab_size, vocab_size] ... stored
flattened as vocab_size² rows of vocab_size entries each (row index =
previous_id * vocab_size + current_id)". -/
structure SimpleNextTokenModel where
  vocab_size : ℕ
  weights : List (List ℝ)

/-- Modelled from the spec: initialization, "all-zero at initialization"
with "vocab_size² rows × vocab_size columns" (spec §3). -/
def SimpleNextTokenModel.init (v : ℕ) : SimpleNextTokenModel :=
  ⟨v, List.replicate (v * v) (List.replicate v 0)⟩

/-- The weight-table shape invariant of spec §3: "table size is always
vocab_size³ elements (vocab_size² rows × vocab_size columns)". -/
def SimpleNextTokenModel.wf (m : SimpleNextTokenModel) : Prop :=
  m.weights.length = m.vocab_size * m.vocab_size ∧
    ∀ row ∈ m.weights, row.length = m.vocab_size

/-- Modelled from the spec: max-subtracted softmax over a row of raw scores
(spec §4.1): "probabilities[i] = exp(score[i] − max(score)) /
Σ exp(score[j] − max(score))". -/
noncomputable def softmax (scores : List ℝ) : List ℝ :=
  let mx := (scores.max?).getD 0
  let exps := scores.map (fun s => Real.exp (s - mx))
  exps.map (fun e => e / exps.sum)

/-- Modelled from the spec: `forward` of the missing `toy_gpt_train.c_model`
module (spec §4.1): "Looks up the row at index
previous_id*vocab_size + current_id, applies softmax over that row's
vocab_size raw scores". -/
noncomputable def SimpleNextTokenModel.forward (m : SimpleNextTokenModel)
    (previous_id current_id : ℕ) : List ℝ :=
  softmax (m.weights.getD (previous_id * m.vocab_size + current_id) [])

theorem list_sum_map_div (l : List ℝ) (d : ℝ) :
    (l.map (fun x => x / d)).sum = l.sum / d := by
  induction l with
  | nil => simp
  | cons x xs ih => simp [ih, add_div]

theorem softmax_length (scores : List ℝ) :
    (softmax scores).length = scores.length := by
  simp [softmax]

theorem softmax_denom_pos (scores : List ℝ) (h : scores ≠ []) :
    0 < (scores.map (fun s => Real.exp (s - (scores.max?).getD 0))).sum := by
  apply List.sum_pos
  · intro x hx
    obtain ⟨s, _, rfl⟩ := List.mem_map.mp hx
    exact Real.exp_pos _
  · simpa using h

theorem softmax_mem_pos (scores : List ℝ) (h : scores ≠ []) :
    ∀ p ∈ softmax scores, 0 < p := by
  intro p hp
  simp only [softmax] at hp
  obtain ⟨e, he, rfl⟩ := List.mem_map.mp hp
  obtain ⟨s, _, rfl⟩ := List.mem_map.mp he
  exact div_pos (Real.exp_pos _) (softmax_denom_pos scores h)

theorem softmax_sum (scores : List ℝ) (h : scores ≠ []) :
    (softmax scores).sum = 1 := by
  have hd := softmax_denom_pos scores h
  simp only [softmax]
  rw [list_sum_map_div]
  exact div_self (ne_of_gt hd)

theorem row_index_lt (v previous_id current_id : ℕ)
    (hp : previous_id < v) (hc : current_id < v) :
    previous_id * v + current_id < v * v := by
  have h1 : previous_id + 1 ≤ v := hp
  have h2 : (previous_id + 1) * v ≤ v * v := Nat.mul_le_mul_right v h1
  have h3 : (previous_id + 1) * v = previous_id * v + v := by ring
  omega

theorem wf_row_length (m : SimpleNextTokenModel) (hwf : m.wf)
    (previous_id current_id : ℕ)
    (hp : previous_id < m.vocab_size) (hc : current_id < m.vocab_size) :
    (m.weights.getD (previous_id * m.vocab_size + current_id) []).length
      = m.vocab_size := by
  obtain ⟨hlen, hrows⟩ := hwf
  have hidx : previous_id * m.vocab_size + current_id < m.weights.length := by
    rw [hlen]; exact row_index_lt _ _ _ hp hc
  rw [List.getD_eq_getElem m.weights [] hidx]
  exact hrows _ (List.getElem_mem hidx)

/-- C1: for every vocab_size V ≥ 1 and valid context IDs, `forward` is the
max-subtracted softmax of the weight row at index
previous_id*vocab_size + current_id, and returns exactly V probabilities,
each ≥ 0, summing to 1.0 within 1e-9. -/
theorem forward_softmax_distribution (m : SimpleNextTokenModel)
    (previous_id current_id : ℕ) (hwf : m.wf) (hV : 1 ≤ m.vocab_size)
    (hp : previous_id < m.vocab_size) (hc : current_id < m.vocab_size) :
    m.forward previous_id current_id
        = softmax (m.weights.getD (previous_id * m.vocab_size + current_id) [])
      ∧ (m.forward previous_id current_id).length = m.vocab_size
      ∧ (∀ p ∈ m.forward previous_id current_id, 0 ≤ p)
      ∧ |(m.forward previous_id current_id).sum - 1| ≤ 1e-9 := by
  have hrow := wf_row_length m hwf previous_id current_id hp hc
  have hne : m.weights.getD (previous_id * m.vocab_size + current_id) [] ≠ [] := by
    intro hnil
    rw [hnil] at hrow
    simp at hrow
    omega
  refine ⟨rfl, ?_, ?_, ?_⟩
  · rw [SimpleNextTokenModel.forward, softmax_length, hrow]
  · intro p hmem
    exact le_of_lt (softmax_mem_pos _ hne p hmem)
  · rw [SimpleNextTokenModel.forward, softmax_sum _ hne]
    norm_num

theorem init_wf (v : ℕ) : (SimpleNextTokenModel.init v).wf := by
  constructor
  · simp [SimpleNextTokenModel.init]
  · intro row hrow
    simp only [SimpleNextTokenModel.init] at hrow ⊢
    rw [List.eq_of_mem_replicate hrow]
    simp

/-- Witness for C1 at the concrete all-zero model of vocab_size 2 with
context (0, 1). -/
theorem forward_softmax_distribution_witness :
    ((SimpleNextTokenModel.init 2).forward 0 1).length = 2
      ∧ (∀ p ∈ (SimpleNextTokenModel.init 2).forward 0 1, 0 ≤ p)
      ∧ |((SimpleNextTokenModel.init 2).forward 0 1).sum - 1| ≤ 1e-9 := by
  have h := forward_softmax_distribution (SimpleNextTokenModel.init 2) 0 1
    (init_wf 2) (by norm_num [SimpleNextTokenModel.init])
    (by norm_num [SimpleNextTokenModel.init])
    (by norm_num [SimpleNextTokenModel.init])
  exact ⟨h.2.1, h.2.2.1, h.2.2.2⟩

/-- Modelled from the spec: `make_training_pairs` of the missing
`toy_gpt_train.d_train` module (spec §3, §4.2): one training pair
((previous_id, current_id), target_next_id) per sliding window of width 3,
in corpus order. -/
def make_training_pairs : List ℕ → List ((ℕ × ℕ) × ℕ)
  | a :: b :: c :: rest => ((a, b), c) :: make_training_pairs (b :: c :: rest)
  | _ => []

theorem make_training_pairs_length :
    ∀ ids : List ℕ, (make_training_pairs ids).length = ids.length - 2
  | [] => rfl
  | [_] => rfl
  | [_, _] => rfl
  | _ :: b :: c :: rest => by
    simp only [make_training_pairs, List.length_cons]
    rw [make_training_pairs_length (b :: c :: rest)]
    simp only [List.length_cons]
    omega

theorem make_training_pairs_getD :
    ∀ (ids : List ℕ) (k : ℕ), k < ids.length - 2 →
      (make_training_pairs ids).getD k ((0, 0), 0)
        = ((ids.getD k 0, ids.getD (k + 1) 0), ids.getD (k + 2) 0)
  | [], _, h => by simp at h
  | [_], _, h => by simp at h
  | [_, _], _, h => by simp at h
  | _ :: _ :: _ :: _, 0, _ => rfl
  | _ :: b :: c :: rest, k + 1, h => by
    simp only [make_training_pairs, List.getD_cons_succ]
    exact make_training_pairs_getD (b :: c :: rest) k (by simp at h ⊢; omega)

/-- C3: on a token-ID sequence of length N, `make_training_pairs` produces
exactly max(0, N−2) pairs (natural subtraction N − 2), the k-th pair being
((id[k], id[k+1]), id[k+2]) for consecutive positions in corpus order. -/
theorem make_training_pairs_spec (ids : List ℕ) :
    (make_training_pairs ids).length = ids.length - 2
      ∧ ∀ k, k < ids.length - 2 →
          (make_training_pairs ids).getD k ((0, 0), 0)
            = ((ids.getD k 0, ids.getD (k + 1) 0), ids.getD (k + 2) 0) :=
  ⟨make_training_pairs_length ids, fun k hk => make_training_pairs_getD ids k hk⟩

/-- Witness for C3 on the concrete sequence [3, 1, 2, 1]. -/
theorem make_training_pairs_spec_witness :
    (make_training_pairs [3, 1, 2, 1]).length = 4 - 2
      ∧ (make_training_pairs [3, 1, 2, 1]).getD 1 ((0, 0), 0) = ((1, 2), 1) :=
  ⟨(make_training_pairs_spec [3, 1, 2, 1]).1,
    (make_training_pairs_spec [3, 1, 2, 1]).2 1 (by decide)⟩

/-- Modelled from the spec: `argmax` of the missing
`toy_gpt_train.math_training` module, with the tie-break of spec §4.3:
"pick next_id = argmax(probabilities), tie-break by smallest ID", i.e. the
first index attaining the maximum. -/
noncomputable def argmax : List ℝ → ℕ
  | [] => 0
  | [_] => 0
  | x :: y :: ys =>
    let j := argmax (y :: ys)
    if x < (y :: ys).getD j 0 then j + 1 else 0

theorem argmax_is_first_max :
    ∀ l : List ℝ, l ≠ [] →
      argmax l < l.length
        ∧ (∀ j < l.length, l.getD j 0 ≤ l.getD (argmax l) 0)
        ∧ (∀ j < argmax l, l.getD j 0 < l.getD (argmax l) 0)
  | [], h => absurd rfl h
  | [x], _ => by
    refine ⟨by simp [argmax], ?_, ?_⟩
    · intro j hj
      simp only [List.length_singleton] at hj
      have hj0 : j = 0 := by omega
      subst hj0
      simp [argmax]
    · intro j hj
      simp [argmax] at hj
  | x :: y :: ys, _ => by
    obtain ⟨ih1, ih2, ih3⟩ := argmax_is_first_max (y :: ys) (by simp)
    by_cases hx : x < (y :: ys).getD (argmax (y :: ys)) 0
    · have hav : argmax (x :: y :: ys) = argmax (y :: ys) + 1 := by
        simp only [argmax]
        rw [if_pos hx]
      refine ⟨?_, ?_, ?_⟩
      · rw [hav]
        simpa using Nat.succ_lt_succ ih1
      · intro j hj
        rw [hav, List.getD_cons_succ]
        match j with
        | 0 => exact le_of_lt hx
        | j + 1 =>
          rw [List.getD_cons_succ]
          exact ih2 j (by simpa using Nat.lt_of_succ_lt_succ hj)
      · intro j hj
        rw [hav, List.getD_cons_succ]
        match j with
        | 0 => exact hx
        | j + 1 =>
          rw [List.getD_cons_succ]
          exact ih3 j (by omega)
    · have hav : argmax (x :: y :: ys) = 0 := by
        simp only [argmax]
        rw [if_neg hx]
      push_neg at hx
      refine ⟨?_, ?_, ?_⟩
      · rw [hav]; simp
      · intro j hj
        rw [hav, List.getD_cons_zero]
        match j with
        | 0 => simp
        | j + 1 =>
          rw [List.getD_cons_succ]
          exact le_trans (ih2 j (by simpa using Nat.lt_of_succ_lt_succ hj)) hx
      · intro j hj
        rw [hav] at hj
        exact absurd hj (Nat.not_lt_zero j)

/-- Error kinds of the training path (spec §7): `InvalidInput` for an empty
pairs sequence, `InvalidConfig` for a non-positive learning rate or epoch
count. -/
inductive TrainError where
  | invalidInput
  | invalidConfig
deriving DecidableEq

/-- Modelled from the spec: the gradient-descent update of one weight row
(spec §4.2 step 4): "score[i] -= learning_rate * (p[i] − 1{i==target_id})". -/
noncomputable def updated_row (row p : List ℝ) (target_id : ℕ)
    (learning_rate : ℝ) : List ℝ :=
  (List.range row.length).map
    (fun i => row.getD i 0
      - learning_rate * (p.getD i 0 - if i = target_id then 1 else 0))

/-- Modelled from the spec: processing of a single training pair inside
`train_model` of the missing `toy_gpt_train.d_train` module (spec §4.2 steps
1 and 4): run the forward pass for the pair's context, then update the
context row in place. -/
noncomputable def train_pair_step (learning_rate : ℝ)
    (m : SimpleNextTokenModel) (pair : (ℕ × ℕ) × ℕ) : SimpleNextTokenModel :=
  let r := pair.1.1 * m.vocab_size + pair.1.2
  let p := m.forward pair.1.1 pair.1.2
  ⟨m.vocab_size,
    m.weights.set r (updated_row (m.weights.getD r []) p pair.2 learning_rate)⟩

/-- Modelled from the spec: one epoch of `train_model` (spec §4.2): pairs
are processed in order, one at a time, each update applied immediately
before the next pair is seen; the epoch accumulates the cross-entropy loss
−log(p[target_id]) and the argmax-accuracy count. -/
noncomputable def train_epoch_stats (learning_rate : ℝ) :
    SimpleNextTokenModel → List ((ℕ × ℕ) × ℕ) →
      SimpleNextTokenModel × ℝ × ℕ
  | m, [] => (m, 0, 0)
  | m, pair :: rest =>
    let p := m.forward pair.1.1 pair.1.2
    let s := train_epoch_stats learning_rate (train_pair_step learning_rate m pair) rest
    (s.1, -Real.log (p.getD pair.2 0) + s.2.1,
      (if argmax p = pair.2 then 1 else 0) + s.2.2)

/-- Per-epoch training history record (spec §3): (epoch_index, mean_loss,
accuracy). -/
structure EpochRecord where
  epoch_index : ℕ
  mean_loss : ℝ
  accuracy : ℝ

/-- Modelled from the spec: the epoch loop of `train_model` (spec §4.2):
for each epoch run every pair once and append (epoch_index, mean_loss,
mean_accuracy) to the history. -/
noncomputable def train_run (learning_rate : ℝ) (pairs : List ((ℕ × ℕ) × ℕ)) :
    ℕ → ℕ → SimpleNextTokenModel → SimpleNextTokenModel × List EpochRecord
  | 0, _, m => (m, [])
  | k + 1, idx, m =>
    let s := train_epoch_stats learning_rate m pairs
    let record : EpochRecord :=
      ⟨idx, s.2.1 / pairs.length, (s.2.2 : ℝ) / pairs.length⟩
    let rest := train_run learning_rate pairs k (idx + 1) s.1
    (rest.1, record :: rest.2)

/-- Modelled from the spec: `train_model` of the missing
`toy_gpt_train.d_train` module (spec §4.2, §7): fail with `InvalidConfig`
when learning_rate or epochs is not positive, fail explicitly with
`InvalidInput` when pairs is empty, otherwise run epoch-based online
gradient descent and return the updated model with its history. -/
noncomputable def train_model (m : SimpleNextTokenModel)
    (pairs : List ((ℕ × ℕ) × ℕ)) (learning_rate : ℝ) (epochs : ℕ) :
    Except TrainError (SimpleNextTokenModel × List EpochRecord) :=
  if learning_rate ≤ 0 ∨ epochs = 0 then .error .invalidConfig
  else if pairs = [] then .error .invalidInput
  else .ok (train_run learning_rate pairs epochs 1 m)

/-- C2: each training pair is applied to the model immediately (the epoch
recursion trains on the head pair before the rest of the epoch sees the
model), and the update to the context row is
score[i] − learning_rate * (p[i] − 1{i==target_id}) with p the forward-pass
distribution for that pair's context. -/
theorem train_online_update (m : SimpleNextTokenModel) (learning_rate : ℝ)
    (pair : (ℕ × ℕ) × ℕ) (rest : List ((ℕ × ℕ) × ℕ)) (hwf : m.wf)
    (hp : pair.1.1 < m.vocab_size) (hc : pair.1.2 < m.vocab_size) :
    (train_epoch_stats learning_rate m (pair :: rest)).1
        = (train_epoch_stats learning_rate
            (train_pair_step learning_rate m pair) rest).1
      ∧ ∀ i < m.vocab_size,
          ((train_pair_step learning_rate m pair).weights.getD
              (pair.1.1 * m.vocab_size + pair.1.2) []).getD i 0
            = (m.weights.getD (pair.1.1 * m.vocab_size + pair.1.2) []).getD i 0
              - learning_rate
                * ((m.forward pair.1.1 pair.1.2).getD i 0
                  - if i = pair.2 then 1 else 0) := by
  constructor
  · simp only [train_epoch_stats]
  · intro i hi
    have hrowlen := wf_row_length m hwf pair.1.1 pair.1.2 hp hc
    have hidx : pair.1.1 * m.vocab_size + pair.1.2 < m.weights.length := by
      rw [hwf.1]
      exact row_index_lt _ _ _ hp hc
    have hset : (train_pair_step learning_rate m pair).weights.getD
        (pair.1.1 * m.vocab_size + pair.1.2) []
          = updated_row (m.weights.getD (pair.1.1 * m.vocab_size + pair.1.2) [])
              (m.forward pair.1.1 pair.1.2) pair.2 learning_rate := by
      simp only [train_pair_step]
      have hlt : pair.1.1 * m.vocab_size + pair.1.2
          < (m.weights.set (pair.1.1 * m.vocab_size + pair.1.2)
              (updated_row (m.weights.getD (pair.1.1 * m.vocab_size + pair.1.2) [])
                (m.forward pair.1.1 pair.1.2) pair.2 learning_rate)).length := by
        rw [List.length_set]
        exact hidx
      rw [List.getD_eq_getElem _ [] hlt, List.getElem_set_self]
    rw [hset]
    have hi2 : i < (m.weights.getD (pair.1.1 * m.vocab_size + pair.1.2) []).length := by
      rw [hrowlen]; exact hi
    have hlen : i < (updated_row (m.weights.getD (pair.1.1 * m.vocab_size + pair.1.2) [])
        (m.forward pair.1.1 pair.1.2) pair.2 learning_rate).length := by
      simp only [updated_row, List.length_map, List.length_range]
      rw [hrowlen]
      exact hi
    rw [List.getD_eq_getElem _ 0 hlen]
    simp only [updated_row, List.getElem_map, List.getElem_range]

/-- Witness for C2 at the all-zero model of vocab_size 2, learning rate
1/10, pair ((0, 1), 1), empty remainder of the epoch. -/
theorem train_online_update_witness :
    (train_epoch_stats (1 / 10) (SimpleNextTokenModel.init 2) [((0, 1), 1)]).1
        = (train_epoch_stats (1 / 10)
            (train_pair_step (1 / 10) (SimpleNextTokenModel.init 2) ((0, 1), 1)) []).1
      ∧ ((train_pair_step (1 / 10) (SimpleNextTokenModel.init 2) ((0, 1), 1)).weights.getD
            (0 * 2 + 1) []).getD 1 0
          = ((SimpleNextTokenModel.init 2).weights.getD (0 * 2 + 1) []).getD 1 0
            - (1 / 10)
              * (((SimpleNextTokenModel.init 2).forward 0 1).getD 1 0
                - if 1 = 1 then 1 else 0) := by
  have h := train_online_update (SimpleNextTokenModel.init 2) (1 / 10)
    ((0, 1), 1) [] (init_wf 2) (by norm_num [SimpleNextTokenModel.init])
    (by norm_num [SimpleNextTokenModel.init])
  exact ⟨h.1, h.2 1 (by norm_num [SimpleNextTokenModel.init])⟩

/-- C6: `train_model` fails explicitly with `InvalidInput` on an empty pairs
sequence (given a valid configuration), and fails with `InvalidConfig`
whenever learning_rate or epochs is not positive. -/
theorem train_model_error_handling (m : SimpleNextTokenModel)
    (pairs : List ((ℕ × ℕ) × ℕ)) (learning_rate : ℝ) (epochs : ℕ) :
    (0 < learning_rate → 0 < epochs → pairs = [] →
        train_model m pairs learning_rate epochs = .error .invalidInput)
      ∧ (learning_rate ≤ 0 ∨ epochs = 0 →
          train_model m pairs learning_rate epochs = .error .invalidConfig) := by
  constructor
  · intro hlr he hpairs
    rw [train_model, if_neg, if_pos hpairs]
    push_neg
    exact ⟨hlr, Nat.pos_iff_ne_zero.mp he⟩
  · intro h
    rw [train_model, if_pos h]

/-- Witness for C6: empty pairs with a valid configuration give
`InvalidInput`; a zero learning rate gives `InvalidConfig`. -/
theorem train_model_error_handling_witness :
    train_model (SimpleNextTokenModel.init 1) [] (1 / 10) 5
        = .error .invalidInput
      ∧ train_model (SimpleNextTokenModel.init 1) [((0, 0), 0)] 0 5
        = .error .invalidConfig :=
  ⟨(train_model_error_handling (SimpleNextTokenModel.init 1) [] (1 / 10) 5).1
      (by norm_num) (by norm_num) rfl,
    (train_model_error_handling (SimpleNextTokenModel.init 1) [((0, 0), 0)] 0 5).2
      (Or.inl le_rfl)⟩

/-- Error kinds of the inference path (spec §7): `TokenNotFound` for an
unknown token, `MissingArtifact` for an absent persisted file,
`ShapeMismatch` for inconsistent weight-table dimensions. -/
inductive InferError where
  | tokenNotFound
  | missingArtifact
  | shapeMismatch
deriving DecidableEq

/-- Modelled from the spec: the ID sequence produced by greedy decoding
(spec §4.3): repeat num_tokens times, pick next_id = argmax of the forward
probabilities, then slide the context (prev ← curr, curr ← next). -/
noncomputable def generated_ids (m : SimpleNextTokenModel) :
    ℕ → ℕ → ℕ → List ℕ
  | _, _, 0 => []
  | previous_id, current_id, n + 1 =>
    let next_id := argmax (m.forward previous_id current_id)
    next_id :: generated_ids m current_id next_id n

/-- Modelled from the spec: `generate_tokens_context2` of the missing
`toy_gpt_train.e_infer` module (spec §4.3): fail with `TokenNotFound` when
the start token is absent from the vocabulary, otherwise bootstrap the
context as (start_id, start_id) and decode greedily; generated IDs are
mapped back to tokens (the `getD` default is unreachable for a well-formed
model with a matching vocabulary). -/
noncomputable def generate_tokens_context2 (m : SimpleNextTokenModel)
    (vocab : List String) (start_token : String) (num_tokens : ℕ) :
    Except InferError (List String) :=
  match List.indexOf? start_token vocab with
  | none => .error .tokenNotFound
  | some start_id =>
    .ok ((generated_ids m start_id start_id num_tokens).map
      (fun i => vocab.getD i ""))

theorem generated_ids_length (m : SimpleNextTokenModel) :
    ∀ (n previous_id current_id : ℕ),
      (generated_ids m previous_id current_id n).length = n
  | 0, _, _ => rfl
  | n + 1, p, c => by
    simp only [generated_ids, List.length_cons]
    rw [generated_ids_length m n]

/-- C4: with the start token present in the vocabulary, generation succeeds
and equals the greedy decode bootstrapped from the duplicated context
(start_id, start_id); every successful output has exactly num_tokens
tokens; each decoding step picks the argmax of the forward probabilities
and slides the context; and the argmax is the first (smallest-ID) index
attaining the maximum probability. -/
theorem generate_greedy_decoding (m : SimpleNextTokenModel)
    (vocab : List String) (start_token : String) (num_tokens : ℕ)
    (hwf : m.wf) (h1 : 1 ≤ m.vocab_size) (hmem : start_token ∈ vocab) :
    ∃ start_id, List.indexOf? start_token vocab = some start_id
      ∧ generate_tokens_context2 m vocab start_token num_tokens
          = .ok ((generated_ids m start_id start_id num_tokens).map
              (fun i => vocab.getD i ""))
      ∧ (∀ ts, generate_tokens_context2 m vocab start_token num_tokens = .ok ts →
          ts.length = num_tokens)
      ∧ (∀ previous_id current_id n,
          generated_ids m previous_id current_id (n + 1)
            = argmax (m.forward previous_id current_id)
                :: generated_ids m current_id
                    (argmax (m.forward previous_id current_id)) n)
      ∧ (∀ previous_id current_id,
          previous_id < m.vocab_size → current_id < m.vocab_size →
            argmax (m.forward previous_id current_id) < m.vocab_size
              ∧ (∀ j < m.vocab_size,
                  (m.forward previous_id current_id).getD j 0
                    ≤ (m.forward previous_id current_id).getD
                        (argmax (m.forward previous_id current_id)) 0)
              ∧ ∀ j < argmax (m.forward previous_id current_id),
                  (m.forward previous_id current_id).getD j 0
                    < (m.forward previous_id current_id).getD
                        (argmax (m.forward previous_id current_id)) 0) := by
  have hne : List.indexOf? start_token vocab ≠ none := by
    intro hnone
    rw [List.indexOf?_eq_none_iff] at hnone
    exact hnone start_token hmem (by simp)
  obtain ⟨start_id, hsid⟩ := Option.ne_none_iff_exists'.mp hne
  refine ⟨start_id, hsid, ?_, ?_, ?_, ?_⟩
  · simp [generate_tokens_context2, hsid]
  · intro ts hts
    simp only [generate_tokens_context2, hsid] at hts
    cases hts
    rw [List.length_map, generated_ids_length]
  · intro p c n
    simp only [generated_ids]
  · intro p c hp hc
    have hflen : (m.forward p c).length = m.vocab_size :=
      (forward_softmax_distribution m p c hwf h1 hp hc).2.1
    have hfne : m.forward p c ≠ [] := by
      intro hnil
      rw [hnil] at hflen
      simp at hflen
      omega
    obtain ⟨ha1, ha2, ha3⟩ := argmax_is_first_max (m.forward p c) hfne
    rw [hflen] at ha1 ha2
    exact ⟨ha1, ha2, ha3⟩

/-- Witness for C4 at the all-zero model of vocab_size 2, vocabulary
["a", "b"], start token "a", two generated tokens. -/
theorem generate_greedy_decoding_witness :
    generate_tokens_context2 (SimpleNextTokenModel.init 2) ["a", "b"] "a" 2
      = .ok ((generated_ids (SimpleNextTokenModel.init 2) 0 0 2).map
          (fun i => (["a", "b"]).getD i "")) := by
  obtain ⟨sid, hsid, hok, _⟩ := generate_greedy_decoding
    (SimpleNextTokenModel.init 2) ["a", "b"] "a" 2 (init_wf 2)
    (by norm_num [SimpleNextTokenModel.init]) (by simp)
  have h0 : sid = 0 := by
    have hcomp : List.indexOf? "a" ["a", "b"] = some 0 := rfl
    rw [hcomp] at hsid
    exact (Option.some.inj hsid).symm
  rw [h0] at hok
  exact hok

/-- C7: `generate_tokens_context2` called with a start token absent from the
vocabulary fails with `TokenNotFound`, surfacing the error to the caller. -/
theorem generate_token_not_found (m : SimpleNextTokenModel)
    (vocab : List String) (start_token : String) (num_tokens : ℕ)
    (habs : start_token ∉ vocab) :
    generate_tokens_context2 m vocab start_token num_tokens
      = .error .tokenNotFound := by
  have hnone : List.indexOf? start_token vocab = none := by
    rw [List.indexOf?_eq_none_iff]
    intro x hx
    simp only [beq_iff_eq]
    intro hxe
    exact habs (hxe ▸ hx)
  simp [generate_tokens_context2, hnone]

/-- Witness for C7: generating from the unknown token "dog" over the
vocabulary ["cat", "sat", "mat"] fails with `TokenNotFound`. -/
theorem generate_token_not_found_witness :
    generate_tokens_context2 (SimpleNextTokenModel.init 3)
        ["cat", "sat", "mat"] "dog" 4
      = .error .tokenNotFound :=
  generate_token_not_found (SimpleNextTokenModel.init 3)
    ["cat", "sat", "mat"] "dog" 4 (by decide)

/-- Ordering used by `top_k` (spec §4.3): descending by probability, ties
broken by ascending ID. -/
def tk_rel (a b : ℕ × ℝ) : Prop :=
  b.2 < a.2 ∨ (a.2 = b.2 ∧ a.1 ≤ b.1)

noncomputable instance : DecidableRel tk_rel := fun _ _ => by
  unfold tk_rel
  infer_instance

instance : IsTotal (ℕ × ℝ) tk_rel :=
  ⟨fun a b => by
    rcases lt_trichotomy a.2 b.2 with h | h | h
    · exact Or.inr (Or.inl h)
    · rcases le_total a.1 b.1 with h2 | h2
      · exact Or.inl (Or.inr ⟨h, h2⟩)
      · exact Or.inr (Or.inr ⟨h.symm, h2⟩)
    · exact Or.inl (Or.inl h)⟩

instance : IsTrans (ℕ × ℝ) tk_rel :=
  ⟨fun a b c hab hbc => by
    rcases hab with h1 | ⟨h1e, h1i⟩
    · rcases hbc with h2 | ⟨h2e, h2i⟩
      · exact Or.inl (lt_trans h2 h1)
      · exact Or.inl (h2e ▸ h1)
    · rcases hbc with h2 | ⟨h2e, h2i⟩
      · exact Or.inl (h1e ▸ h2)
      · exact Or.inr ⟨h1e.trans h2e, le_trans h1i h2i⟩⟩

/-- Modelled from the spec: `top_k` of the missing `toy_gpt_train.e_infer`
module (spec §4.3): the k highest-probability (id, probability) entries,
descending by probability, ties broken by ascending ID. -/
noncomputable def top_k (probs : List ℝ) (k : ℕ) : List (ℕ × ℝ) :=
  (List.insertionSort tk_rel probs.enum).take k

/-- Embedded from `src/toy_gpt_train_animals/e_infer.py` line 122: the call
site clamps the requested display width to at least 1 with `max(1, topk)`,
so a requested k < 1 is clamped to 1 rather than failing. -/
noncomputable def top_k_display (probs : List ℝ) (k : ℤ) : List (ℕ × ℝ) :=
  top_k probs (max 1 k).toNat

/-- C5: `top_k` returns the k highest-probability (id, probability) entries
ordered descending by probability with ties broken by ascending ID (every
entry of the input left out of the selection ranks no higher than every
selected entry); a requested k < 1 is clamped to 1 at the call site; and on
probabilities [0.1, 0.5, 0.4] with k = 3 the result is
[(1, 0.5), (2, 0.4), (0, 0.1)]. -/
theorem top_k_spec (probs : List ℝ) (k : ℕ) (hk : 1 ≤ k) :
    List.Sorted tk_rel (top_k probs k)
      ∧ (top_k probs k).length = min k probs.length
      ∧ (∀ e ∈ top_k probs k, e ∈ probs.enum)
      ∧ (∀ e ∈ probs.enum, e ∉ top_k probs k →
          ∀ e2 ∈ top_k probs k, tk_rel e2 e)
      ∧ (∀ j : ℤ, j < 1 → top_k_display probs j = top_k probs 1)
      ∧ top_k [0.1, 0.5, 0.4] 3 = [(1, 0.5), (2, 0.4), (0, 0.1)] := by
  refine ⟨?_, ?_, ?_, ?_, ?_, ?_⟩
  · exact List.Pairwise.sublist (List.take_sublist k _)
      (List.sorted_insertionSort tk_rel probs.enum)
  · rw [top_k, List.length_take,
      (List.perm_insertionSort tk_rel probs.enum).length_eq, List.enum_length]
  · intro e he
    have hs : e ∈ List.insertionSort tk_rel probs.enum :=
      (List.take_sublist k _).subset he
    exact ((List.perm_insertionSort tk_rel probs.enum).mem_iff).mp hs
  · intro e he hnot e2 he2
    have hs : e ∈ List.insertionSort tk_rel probs.enum :=
      ((List.perm_insertionSort tk_rel probs.enum).mem_iff).mpr he
    have hsplit := List.take_append_drop k (List.insertionSort tk_rel probs.enum)
    have hdrop : e ∈ (List.insertionSort tk_rel probs.enum).drop k := by
      rcases List.mem_append.mp (hsplit ▸ hs) with h | h
      · exact absurd h hnot
      · exact h
    have hpw : List.Pairwise tk_rel
        ((List.insertionSort tk_rel probs.enum).take k
          ++ (List.insertionSort tk_rel probs.enum).drop k) := by
      rw [hsplit]
      exact List.sorted_insertionSort tk_rel probs.enum
    exact (List.pairwise_append.mp hpw).2.2 e2 he2 e hdrop
  · intro j hj
    have hmax : max (1 : ℤ) j = 1 := max_eq_left (le_of_lt hj)
    rw [top_k_display, hmax]
    rfl
  · have henum : ([0.1, 0.5, 0.4] : List ℝ).enum
        = [(0, 0.1), (1, 0.5), (2, 0.4)] := rfl
    rw [top_k, henum]
    norm_num [List.insertionSort, List.orderedInsert, tk_rel]

/-- Witness for C5 at the spec's concrete example. -/
theorem top_k_spec_witness :
    top_k [0.1, 0.5, 0.4] 3 = [(1, 0.5), (2, 0.4), (0, 0.1)] :=
  (top_k_spec [0.1, 0.5, 0.4] 3 (by norm_num)).2.2.2.2.2

/-- Modelled from the spec: the metadata record of the artifact bundle
(spec §3, §6): model kind, hyperparameters, corpus identity. -/
structure ArtifactMeta where
  model_kind : String
  learning_rate : ℝ
  epochs : ℕ
  corpus : String

/-- Modelled from the spec: the persisted token↔id↔frequency table
(spec §6); a token's ID is its row index. -/
abbrev VocabTable := List (String × ℕ)

/-- Modelled from the spec: the artifact writer of the missing
`toy_gpt_train.io_artifacts` module (spec §6): produces the three persisted
representations (a metadata record, a token↔id↔frequency table, a weights
table with vocab_size² rows of vocab_size columns). -/
def write_artifacts (meta : ArtifactMeta) (vocab : VocabTable)
    (m : SimpleNextTokenModel) : ArtifactMeta × VocabTable × List (List ℝ) :=
  (meta, vocab, m.weights)

/-- Modelled from the spec: the artifact reader of the missing
`toy_gpt_train.e_infer` module (spec §6, §7): fails with `MissingArtifact`
when any of the three persisted representations is absent, with
`ShapeMismatch` when the weights table does not have exactly vocab_size²
rows of vocab_size columns for the loaded vocabulary, and otherwise
reconstructs the vocabulary and the model. -/
def read_artifacts (meta? : Option ArtifactMeta) (vocab? : Option VocabTable)
    (weights? : Option (List (List ℝ))) :
    Except InferError (ArtifactMeta × VocabTable × SimpleNextTokenModel) :=
  match meta?, vocab?, weights? with
  | some meta, some vocab, some w =>
    if w.length = vocab.length * vocab.length
        ∧ ∀ row ∈ w, row.length = vocab.length then
      .ok (meta, vocab, ⟨vocab.length, w⟩)
    else .error .shapeMismatch
  | _, _, _ => .error .missingArtifact

/-- C8: the artifact reader fails with `MissingArtifact` when any of the
three persisted representations is absent, and with `ShapeMismatch` when
the persisted weights table does not have exactly vocab_size² rows of
vocab_size columns for the loaded vocabulary size. -/
theorem read_artifacts_error_handling :
    (∀ (meta? : Option ArtifactMeta) (vocab? : Option VocabTable)
        (weights? : Option (List (List ℝ))),
        meta? = none ∨ vocab? = none ∨ weights? = none →
          read_artifacts meta? vocab? weights? = .error .missingArtifact)
      ∧ ∀ (meta : ArtifactMeta) (vocab : VocabTable) (w : List (List ℝ)),
          ¬(w.length = vocab.length * vocab.length
              ∧ ∀ row ∈ w, row.length = vocab.length) →
            read_artifacts (some meta) (some vocab) (some w)
              = .error .shapeMismatch := by
  constructor
  · intro mo vo wo h
    rcases h with rfl | rfl | rfl
    · cases vo <;> cases wo <;> rfl
    · cases mo <;> cases wo <;> rfl
    · cases mo <;> cases vo <;> rfl
  · intro meta vocab w h
    simp only [read_artifacts]
    rw [if_neg h]

/-- Witness for C8: a missing metadata file gives `MissingArtifact`; an
empty weights table against a one-token vocabulary gives `ShapeMismatch`. -/
theorem read_artifacts_error_handling_witness :
    read_artifacts none (some [("cat", 3)]) (some [[(0 : ℝ)]])
        = .error .missingArtifact
      ∧ read_artifacts (some ⟨"context2", 1 / 10, 50, "001_animals.txt"⟩)
          (some [("cat", 3)]) (some [])
        = .error .shapeMismatch :=
  ⟨read_artifacts_error_handling.1 none (some [("cat", 3)])
      (some [[(0 : ℝ)]]) (Or.inl rfl),
    read_artifacts_error_handling.2 ⟨"context2", 1 / 10, 50, "001_animals.txt"⟩
      [("cat", 3)] [] (by simp)⟩

/-- C9: writing the artifact bundle of a trained model and reading it back
succeeds and reconstructs the metadata, a vocabulary of identical size, and
a model whose forward outputs coincide exactly with the in-memory model's
on every context. -/
theorem artifact_round_trip (meta : ArtifactMeta) (vocab : VocabTable)
    (m : SimpleNextTokenModel) (hwf : m.wf)
    (hv : m.vocab_size = vocab.length) :
    read_artifacts (some (write_artifacts meta vocab m).1)
        (some (write_artifacts meta vocab m).2.1)
        (some (write_artifacts meta vocab m).2.2)
      = .ok (meta, vocab, ⟨vocab.length, m.weights⟩)
      ∧ (⟨vocab.length, m.weights⟩ : SimpleNextTokenModel).vocab_size
          = vocab.length
      ∧ ∀ previous_id current_id : ℕ,
          (⟨vocab.length, m.weights⟩ : SimpleNextTokenModel).forward
              previous_id current_id
            = m.forward previous_id current_id := by
  refine ⟨?_, rfl, ?_⟩
  · simp only [write_artifacts, read_artifacts]
    rw [if_pos]
    constructor
    · rw [← hv]
      exact hwf.1
    · intro row hrow
      rw [← hv]
      exact hwf.2 row hrow
  · intro previous_id current_id
    simp only [SimpleNextTokenModel.forward]
    rw [hv]

/-- Witness for C9 at the all-zero model of vocab_size 1 and a one-token
vocabulary. -/
theorem artifact_round_trip_witness :
    read_artifacts
        (some (write_artifacts ⟨"context2", 1 / 10, 50, "001_animals.txt"⟩
          [("cat", 3)] (SimpleNextTokenModel.init 1)).1)
        (some (write_artifacts ⟨"context2", 1 / 10, 50, "001_animals.txt"⟩
          [("cat", 3)] (SimpleNextTokenModel.init 1)).2.1)
        (some (write_artifacts ⟨"context2", 1 / 10, 50, "001_animals.txt"⟩
          [("cat", 3)] (SimpleNextTokenModel.init 1)).2.2)
      = .ok (⟨"context2", 1 / 10, 50, "001_animals.txt"⟩, [("cat", 3)],
          ⟨1, (SimpleNextTokenModel.init 1).weights⟩)
      ∧ (⟨1, (SimpleNextTokenModel.init 1).weights⟩ : SimpleNextTokenModel).forward 0 0
        = (SimpleNextTokenModel.init 1).forward 0 0 := by
  have h := artifact_round_trip ⟨"context2", 1 / 10, 50, "001_animals.txt"⟩
    [("cat", 3)] (SimpleNextTokenModel.init 1) (init_wf 1) rfl
  exact ⟨h.1, h.2.2 0 0⟩

/-- Possible outcomes of the token-selection part of the `c_model.py` demo
entry point. -/
inductive ModelDemoOutcome where
  | earlyReturn
  | indexError
  | demo (previous_token current_token : String)
deriving DecidableEq

/-- Embedded from `src/toy_gpt_train_animals/c_model.py` `main` (lines
66-78): the guard returns early when `len(tokens) < 2`; otherwise the demo
reads `tokens[1]` and `tokens[2]`.  Python raises IndexError on
out-of-bounds list indexing, modelled here as the `indexError` outcome when
either optional lookup misses. -/
def c_model_demo_select (tokens : List String) : ModelDemoOutcome :=
  if tokens.length < 2 then .earlyReturn
  else
    match tokens[1]?, tokens[2]? with
    | some p, some c => .demo p c
    | _, _ => .indexError

/-- C10: on a corpus of exactly two tokens the `c_model.py` demo passes its
`len(tokens) < 2` guard but the read of `tokens[2]` is out of bounds, so the
demo hits an unhandled IndexError. -/
theorem c_model_demo_two_tokens_index_error (tokens : List String)
    (h : tokens.length = 2) : c_model_demo_select tokens = .indexError := by
  obtain ⟨a, b, rfl⟩ := List.length_eq_two.mp h
  rfl

/-- Witness for C10 at the concrete two-token corpus ["cat", "sat"]. -/
theorem c_model_demo_two_tokens_index_error_witness :
    c_model_demo_select ["cat", "sat"] = .indexError :=
  c_model_demo_two_tokens_index_error ["cat", "sat"] (by decide)

end ToyGPT
